import Mathlib

/-!
Shallow embedding of the ATM filter project (filtering.py, atm_sim.py, app.py).

Python floats are modelled as rationals (ℚ), so all arithmetic is exact.
Python dicts keyed by (vpi, vci) are modelled as association lists in
insertion order.  The `timestamp` attribute set in `ATMCell.__init__` is a
wall-clock read that no other code ever reads, so it is omitted from the
cell record.
-/

/-- `ATMCell` from filtering.py: header (vpi, vci), payload and malice label. -/
structure ATMCell where
  vpi : Int
  vci : Int
  payload : String
  is_malicious : Bool
deriving DecidableEq, Repr

/-- `ATMCell.header`: the (vpi, vci) pair. -/
def ATMCell.header (c : ATMCell) : Int × Int := (c.vpi, c.vci)

/-- `HeaderRule` from filtering.py: a denylist (Python set) of (vpi, vci) pairs. -/
structure HeaderRule where
  deny_list : Finset (Int × Int)
deriving DecidableEq

/-- `HeaderRule.__init__`: `set(deny_list) if deny_list else set()`. -/
def HeaderRule.ofList (l : List (Int × Int)) : HeaderRule :=
  ⟨l.toFinset⟩

/-- `HeaderRule.check`: true iff the cell's header is in the denylist. -/
def HeaderRule.check (r : HeaderRule) (c : ATMCell) : Bool :=
  c.header ∈ r.deny_list

/-- Python's substring test `needle in hay`, on the character lists of the
strings: true iff `needle` occurs contiguously in `hay`. -/
def containsSub (needle : List Char) : List Char → Bool
  | [] => needle.isEmpty
  | c :: t => needle.isPrefixOf (c :: t) || containsSub needle t

/-- `PayloadRule` from filtering.py: an ordered list of signature strings. -/
structure PayloadRule where
  signatures : List String
deriving DecidableEq

/-- `PayloadRule.check`: true iff some signature is a substring of the payload. -/
def PayloadRule.check (r : PayloadRule) (c : ATMCell) : Bool :=
  r.signatures.any fun sig => containsSub sig.data c.payload.data

/-- `TokenBucket` from filtering.py.  `last_time` is `None` until first use. -/
structure TokenBucket where
  rate : ℚ
  capacity : ℚ
  tokens : ℚ
  last_time : Option ℚ
deriving DecidableEq

/-- `TokenBucket.__init__(rate, burst)`: tokens start at full capacity,
`last_time` starts as `None`. -/
def TokenBucket.init (rate_tokens_per_sec burst_capacity : ℚ) : TokenBucket :=
  { rate := rate_tokens_per_sec
    capacity := burst_capacity
    tokens := burst_capacity
    last_time := none }

/-- `TokenBucket.allow(now)`: on first use `last_time` is set to `now`
(so `elapsed = 0`); otherwise `elapsed = now - last_time`; a positive
`elapsed` refills `tokens` to `min(capacity, tokens + elapsed * rate)` and
advances `last_time`; then one token is consumed iff `tokens >= 1`.
Returns the Python return value paired with the mutated bucket. -/
def TokenBucket.allow (tb : TokenBucket) (now : ℚ) : Bool × TokenBucket :=
  let lt := tb.last_time.getD now
  let elapsed := now - lt
  let refilled :=
    if 0 < elapsed then
      { tb with tokens := min tb.capacity (tb.tokens + elapsed * tb.rate)
                last_time := some now }
    else
      { tb with last_time := some lt }
  if 1 ≤ refilled.tokens then
    (true, { refilled with tokens := refilled.tokens - 1 })
  else
    (false, refilled)

/-- Lookup in the policer dict (association list, first match). -/
def lookupTB : List ((Int × Int) × TokenBucket) → (Int × Int) → Option TokenBucket
  | [], _ => none
  | p :: ps, k => if p.1 = k then some p.2 else lookupTB ps k

/-- In-place mutation `self.policers[key].allow(...)`: replace the bucket
stored under `k` by `v`. -/
def updateTB (l : List ((Int × Int) × TokenBucket)) (k : Int × Int) (v : TokenBucket) :
    List ((Int × Int) × TokenBucket) :=
  l.map fun p => if p.1 = k then (k, v) else p

/-- `ATMFilter` from filtering.py: header rule, payload rule, and the policer
dict `{ (vpi,vci): TokenBucket }` in insertion order. -/
structure ATMFilter where
  header_rule : HeaderRule
  payload_rule : PayloadRule
  policers : List ((Int × Int) × TokenBucket)
deriving DecidableEq

/-- `ATMFilter.__init__`: build each policer as `TokenBucket(r, b)` from the
configuration `{ (vpi,vci): (rate, burst) }`. -/
def ATMFilter.build (header_deny : Finset (Int × Int)) (signatures : List String)
    (policer_cfg : List ((Int × Int) × (ℚ × ℚ))) : ATMFilter :=
  { header_rule := ⟨header_deny⟩
    payload_rule := ⟨signatures⟩
    policers := policer_cfg.map fun p => (p.1, TokenBucket.init p.2.1 p.2.2) }

/-- `ATMFilter.process(cell, now)`: header rule, then policer (when one is
configured for the cell's flow), then payload rule.  Returns the Python
`(action, reason)` pair together with the filter after the bucket mutation. -/
def ATMFilter.process (f : ATMFilter) (cell : ATMCell) (now : ℚ) :
    (String × Option String) × ATMFilter :=
  if f.header_rule.check cell then
    (("drop", some "header"), f)
  else
    let key := cell.header
    match lookupTB f.policers key with
    | some tb =>
      let r := tb.allow now
      let f' := { f with policers := updateTB f.policers key r.2 }
      if !r.1 then (("drop", some "policer"), f')
      else if f.payload_rule.check cell then (("drop", some "payload"), f')
      else (("forward", none), f')
    | none =>
      if f.payload_rule.check cell then (("drop", some "payload"), f)
      else (("forward", none), f)

/-!
atm_sim.py.  The Python RNG (`random` seeded Mersenne Twister) is modelled
abstractly: a run is parameterised by the deterministic stream of draws the
seed produces, one record per generated cell — the index drawn by
`random.choice([0,1,2])`, the index drawn by `random.choice([10,20,30,40])`,
the uniform variate of `random.random()` (a value in [0,1)), and the value
of `random.randint(0,999)` (consulted only for malicious cells).
-/

/-- One cell's worth of pseudo-random draws in `generate_traffic`. -/
structure RandDraw where
  vpiIdx : Fin 3
  vciIdx : Fin 4
  u : ℚ
  malInt : Fin 1000

/-- The candidate VPIs `[0,1,2]` of `random.choice`. -/
def vpiChoices : List Int := [0, 1, 2]

/-- The candidate VCIs `[10,20,30,40]` of `random.choice`. -/
def vciChoices : List Int := [10, 20, 30, 40]

/-- The loop body of `generate_traffic`: build one cell from one draw record.
`is_mal = random.random() < malicious_fraction`; malicious payloads are
`"BADSIG_" + str(randint(0,999))`, legitimate payloads are `"NORMALDATA"`. -/
def genCell (malicious_fraction : ℚ) (d : RandDraw) : ATMCell :=
  { vpi := vpiChoices.getD d.vpiIdx.val 0
    vci := vciChoices.getD d.vciIdx.val 0
    payload :=
      if d.u < malicious_fraction then "BADSIG_" ++ toString d.malInt.val
      else "NORMALDATA"
    is_malicious := d.u < malicious_fraction }

/-- `generate_traffic`: yields `(t, cell)` at `t = k * dt` (`dt = 1/total_rate`)
while `t < duration_sec`, i.e. for the naturals `k < duration_sec * total_rate`;
there are `⌈duration_sec * total_rate⌉` of those (0 when the product is ≤ 0;
Python instead raises on `total_rate = 0` and never terminates on a negative
rate, cases no claim exercises). -/
def generate_traffic (duration_sec total_rate malicious_fraction : ℚ)
    (rng : ℕ → RandDraw) : List (ℚ × ATMCell) :=
  let dt := 1 / total_rate
  (List.range (Int.ceil (duration_sec * total_rate)).toNat).map fun (k : ℕ) =>
    ((k : ℚ) * dt, genCell malicious_fraction (rng k))

/-- The counter dictionary of `run_simulation` (`defaultdict(int)`), with one
field per key the loop actually writes. -/
structure Stats where
  total : ℕ := 0
  mal_total : ℕ := 0
  legit_total : ℕ := 0
  dropped : ℕ := 0
  dropped_header : ℕ := 0
  dropped_policer : ℕ := 0
  dropped_payload : ℕ := 0
  mal_dropped : ℕ := 0
  legit_dropped : ℕ := 0
  forwarded : ℕ := 0
  mal_forwarded : ℕ := 0
  legit_forwarded : ℕ := 0
deriving DecidableEq, Repr

/-- The per-cell body of `run_simulation`'s loop: tally the cell, run it
through the filter at `now = now_base + t_offset`, and tally the outcome.
The `dropped_{reason}` bump matches on the reason string exactly as the
f-string key `f'dropped_{reason}'` selects a dict entry. -/
def stepCell (now_base : ℚ) (acc : Stats × ATMFilter) (tc : ℚ × ATMCell) :
    Stats × ATMFilter :=
  let st := acc.1
  let cell := tc.2
  let now := now_base + tc.1
  let st := { st with total := st.total + 1 }
  let st :=
    if cell.is_malicious then { st with mal_total := st.mal_total + 1 }
    else { st with legit_total := st.legit_total + 1 }
  let r := acc.2.process cell now
  let action := r.1.1
  let reason := r.1.2
  let st :=
    if action = "drop" then
      let st := { st with dropped := st.dropped + 1 }
      let st :=
        match reason with
        | some "header" => { st with dropped_header := st.dropped_header + 1 }
        | some "policer" => { st with dropped_policer := st.dropped_policer + 1 }
        | some "payload" => { st with dropped_payload := st.dropped_payload + 1 }
        | _ => st
      if cell.is_malicious then { st with mal_dropped := st.mal_dropped + 1 }
      else { st with legit_dropped := st.legit_dropped + 1 }
    else
      let st := { st with forwarded := st.forwarded + 1 }
      if cell.is_malicious then { st with mal_forwarded := st.mal_forwarded + 1 }
      else { st with legit_forwarded := st.legit_forwarded + 1 }
  (st, r.2)

/-- The final counters plus the two derived rates of `run_simulation`. -/
structure FinalStats where
  counters : Stats
  false_positive_rate : ℚ
  false_negative_rate : ℚ
deriving DecidableEq

/-- The tail of `run_simulation`: derived metrics, guarded by the dict
truthiness tests `if stats.get('legit_total')` / `if stats.get('mal_total')`. -/
def finalize (st : Stats) : FinalStats :=
  { counters := st
    false_positive_rate :=
      if st.legit_total ≠ 0 then (st.legit_dropped : ℚ) / (st.legit_total : ℚ) else 0
    false_negative_rate :=
      if st.mal_total ≠ 0 then (st.mal_forwarded : ℚ) / (st.mal_total : ℚ) else 0 }

/-- `run_simulation`: build the filter, fold the generated traffic through
`stepCell` starting from empty counters, and finalize.  `now_base` stands for
the wall-clock read `time.time()` at the start of the run. -/
def run_simulation (duration rate mal_frac : ℚ) (header_deny : Finset (Int × Int))
    (signatures : List String) (policer_cfg : List ((Int × Int) × (ℚ × ℚ)))
    (rng : ℕ → RandDraw) (now_base : ℚ) : FinalStats :=
  let f := ATMFilter.build header_deny signatures policer_cfg
  let cells := generate_traffic duration rate mal_frac rng
  finalize (cells.foldl (stepCell now_base) ({}, f)).1

/-- Run a whole sequence of `allow` calls, keeping the final bucket. -/
def allowSeq (tb : TokenBucket) (ts : List ℚ) : TokenBucket :=
  ts.foldl (fun b t => (b.allow t).2) tb

/-- Run a whole sequence of `allow` calls, collecting each call's result. -/
def allowAll (tb : TokenBucket) : List ℚ → List Bool × TokenBucket
  | [] => ([], tb)
  | t :: ts =>
    let r := tb.allow t
    let rest := allowAll r.2 ts
    (r.1 :: rest.1, rest.2)

/-- Timestamps `t0, t0 + step, ..., t0 + (n-1) * step`. -/
def evenlySpaced (t0 step : ℚ) (n : ℕ) : List ℚ :=
  (List.range n).map fun (k : ℕ) => t0 + (k : ℚ) * step

/-- The counter identities the aggregation loop maintains. -/
def statsInv (s : Stats) : Prop :=
  s.total = s.forwarded + s.dropped ∧
    s.legit_total = s.legit_forwarded + s.legit_dropped ∧
      s.mal_total = s.mal_forwarded + s.mal_dropped ∧
        s.dropped = s.dropped_header + s.dropped_policer + s.dropped_payload

/-- Spec §4.3 steps 2–3, transcribed from the spec's words for a bucket past
its first use: from (tokens, capacity, rate, lastRefill) and `now`, return
the allow decision and the new (tokens, lastRefill). -/
def allowSpecUsed (tokens capacity rate lastRefill now : ℚ) : Bool × ℚ × ℚ :=
  let elapsed := now - lastRefill
  let refill : ℚ × ℚ :=
    if 0 < elapsed then (min capacity (tokens + elapsed * rate), now)
    else (tokens, lastRefill)
  if 1 ≤ refill.1 then (true, refill.1 - 1, refill.2)
  else (false, refill.1, refill.2)

/-- A fixed stream of draws, used to instantiate theorems on closed inputs. -/
def constRng0 : ℕ → RandDraw := fun _ => ⟨0, 0, 0, 0⟩

set_option allowUnsafeReducibility true in
attribute [semireducible] Rat.add Rat.sub Rat.mul Rat.div Rat.inv

/-- C1: a cell whose flow key is on the header denylist is dropped with
reason "header", whatever the policer configuration and payload are, and the
filter — in particular every token bucket in it — is returned unchanged. -/
theorem header_denied_drops_and_preserves_state (f : ATMFilter) (cell : ATMCell) (now : ℚ)
    (h : cell.header ∈ f.header_rule.deny_list) :
    f.process cell now = (("drop", some "header"), f) := by
  simp [ATMFilter.process, HeaderRule.check, h]

/-- C1 witness: the denied flow (1,30) on a filter that also has a policer
for (1,30) and a signature matching the payload. -/
theorem header_denied_witness :
    (⟨1, 30, "BADSIG_1", false⟩ : ATMCell).header ∈
        (ATMFilter.build {(1, 30)} ["BADSIG_"] [((1, 30), (1, 1))]).header_rule.deny_list ∧
      (ATMFilter.build {(1, 30)} ["BADSIG_"] [((1, 30), (1, 1))]).process ⟨1, 30, "BADSIG_1", false⟩ 7 =
        (("drop", some "header"), ATMFilter.build {(1, 30)} ["BADSIG_"] [((1, 30), (1, 1))]) :=
  ⟨by decide, header_denied_drops_and_preserves_state _ _ _ (by decide)⟩

/-- C7: a cell that is not header-denied and whose flow key has no configured
policer goes straight to the payload check: no bucket is consulted or
created, the filter is unchanged, and the outcome is decided by the payload
rule alone (so the reason is never "policer"). -/
theorem unpoliced_flow_skips_policer (f : ATMFilter) (cell : ATMCell) (now : ℚ)
    (hh : f.header_rule.check cell = false)
    (hp : lookupTB f.policers cell.header = none) :
    f.process cell now =
      ((if f.payload_rule.check cell then ("drop", some "payload") else ("forward", none)), f) := by
  simp only [ATMFilter.process, hh, hp, Bool.false_eq_true, if_false]
  split <;> rfl

/-- C7 witness: flow (0,20) on a filter that polices only (0,10). -/
theorem unpoliced_flow_witness :
    (ATMFilter.build {(1, 30)} ["BADSIG_"] [((0, 10), (1, 1))]).header_rule.check
        ⟨0, 20, "NORMALDATA", false⟩ = false ∧
      lookupTB (ATMFilter.build {(1, 30)} ["BADSIG_"] [((0, 10), (1, 1))]).policers
        (⟨0, 20, "NORMALDATA", false⟩ : ATMCell).header = none ∧
      (ATMFilter.build {(1, 30)} ["BADSIG_"] [((0, 10), (1, 1))]).process
          ⟨0, 20, "NORMALDATA", false⟩ 7 =
        ((if (ATMFilter.build {(1, 30)} ["BADSIG_"] [((0, 10), (1, 1))]).payload_rule.check
              ⟨0, 20, "NORMALDATA", false⟩ then
            ("drop", some "payload")
          else ("forward", none)),
          ATMFilter.build {(1, 30)} ["BADSIG_"] [((0, 10), (1, 1))]) :=
  ⟨by decide, by decide, unpoliced_flow_skips_policer _ _ _ (by decide) (by decide)⟩

/-- C3: on a bucket that has been used at least once (`last_time` is set),
`allow` computes exactly the spec's refill-then-consume step. -/
theorem allow_matches_spec_on_used_bucket (tb : TokenBucket) (now lt : ℚ)
    (h : tb.last_time = some lt) :
    tb.allow now =
      ((allowSpecUsed tb.tokens tb.capacity tb.rate lt now).1,
        { tb with
            tokens := (allowSpecUsed tb.tokens tb.capacity tb.rate lt now).2.1
            last_time := some (allowSpecUsed tb.tokens tb.capacity tb.rate lt now).2.2 }) := by
  rcases tb with ⟨r, c, tok, olt⟩
  cases h
  simp only [TokenBucket.allow, allowSpecUsed, Option.getD_some]
  split_ifs <;> simp_all

/-- C3 witness: a bucket last refilled at time 0, called at time 2. -/
theorem allow_matches_spec_witness :
    (⟨1, 5, 3, some 0⟩ : TokenBucket).allow 2 =
      ((allowSpecUsed 3 5 1 0 2).1,
        { (⟨1, 5, 3, some 0⟩ : TokenBucket) with
            tokens := (allowSpecUsed 3 5 1 0 2).2.1
            last_time := some (allowSpecUsed 3 5 1 0 2).2.2 }) :=
  allow_matches_spec_on_used_bucket ⟨1, 5, 3, some 0⟩ 2 0 rfl

/-- `allowSeq` peels off its first call. -/
theorem allowSeq_cons (tb : TokenBucket) (t : ℚ) (ts : List ℚ) :
    allowSeq tb (t :: ts) = allowSeq ((tb.allow t).2) ts := rfl

/-- One `allow` call keeps `0 ≤ tokens ≤ capacity` and never touches
`rate`/`capacity`, provided the rate is non-negative. -/
theorem allow_range_step (tb : TokenBucket) (now : ℚ) (hr : 0 ≤ tb.rate)
    (h0 : 0 ≤ tb.tokens) (h1 : tb.tokens ≤ tb.capacity) :
    0 ≤ ((tb.allow now).2).tokens ∧ ((tb.allow now).2).tokens ≤ tb.capacity ∧
      ((tb.allow now).2).capacity = tb.capacity ∧ ((tb.allow now).2).rate = tb.rate := by
  rcases tb with ⟨r, c, tok, olt⟩
  simp only at hr h0 h1
  have hc : 0 ≤ c := le_trans h0 h1
  simp only [TokenBucket.allow]
  split_ifs with he ht ht <;> refine ⟨?_, ?_, rfl, rfl⟩
  · exact sub_nonneg.mpr ht
  · exact le_trans (sub_le_self _ zero_le_one) (min_le_left _ _)
  · exact le_min hc (add_nonneg h0 (mul_nonneg (le_of_lt he) hr))
  · exact min_le_left _ _
  · dsimp only at ht ⊢; linarith
  · dsimp only at ht ⊢; linarith
  · exact h0
  · exact h1

/-- Folding `allow` over any timestamp list keeps `0 ≤ tokens ≤ capacity`
when the rate is non-negative. -/
theorem allowSeq_range (ts : List ℚ) (tb : TokenBucket) (hr : 0 ≤ tb.rate)
    (h0 : 0 ≤ tb.tokens) (h1 : tb.tokens ≤ tb.capacity) :
    0 ≤ (allowSeq tb ts).tokens ∧ (allowSeq tb ts).tokens ≤ (allowSeq tb ts).capacity ∧
      (allowSeq tb ts).capacity = tb.capacity ∧ (allowSeq tb ts).rate = tb.rate := by
  induction ts generalizing tb with
  | nil => exact ⟨h0, h1, rfl, rfl⟩
  | cons t ts ih =>
    obtain ⟨a0, a1, ac, ar⟩ := allow_range_step tb t hr h0 h1
    obtain ⟨b0, b1, bc, br⟩ :=
      ih ((tb.allow t).2) (by rw [ar]; exact hr) a0 (by rw [ac]; exact a1)
    exact ⟨by rw [allowSeq_cons]; exact b0,
      by rw [allowSeq_cons]; exact b1,
      by rw [allowSeq_cons, bc, ac],
      by rw [allowSeq_cons, br, ar]⟩

/-- C2 counterexample: the claim quantifies over every constructed bucket,
but a bucket built with capacity -1 starts at tokens = -1, and after one
`Allow` call (a trivially non-decreasing timestamp sequence) the token count
is still negative. -/
theorem tokens_range_fails_for_negative_capacity :
    List.Sorted (· ≤ ·) [(0 : ℚ)] ∧
      (allowSeq (TokenBucket.init 1 (-1)) [(0 : ℚ)]).tokens < 0 := by
  constructor
  · simp
  · decide

/-- C2 amended: for a bucket constructed with non-negative rate and
capacity, after each call of any `Allow` sequence with non-decreasing
timestamps the token count stays within [0, capacity]. -/
theorem tokens_in_range_of_nonneg_params (r c : ℚ) (hr : 0 ≤ r) (hc : 0 ≤ c)
    (ts : List ℚ) (hts : List.Sorted (· ≤ ·) ts) (n : ℕ) :
    0 ≤ (allowSeq (TokenBucket.init r c) (ts.take n)).tokens ∧
      (allowSeq (TokenBucket.init r c) (ts.take n)).tokens ≤ c := by
  obtain ⟨a0, a1, ac, _⟩ := allowSeq_range (ts.take n) (TokenBucket.init r c) hr hc le_rfl
  exact ⟨a0, a1.trans (le_of_eq ac)⟩

/-- C2 amended witness: rate 2, capacity 3, timestamps 0, 1/2, 1. -/
theorem tokens_in_range_witness :
    (0 : ℚ) ≤ 2 ∧ (0 : ℚ) ≤ 3 ∧ List.Sorted (· ≤ ·) [(0 : ℚ), 1/2, 1] ∧
      (0 ≤ (allowSeq (TokenBucket.init 2 3) ([(0 : ℚ), 1/2, 1].take 2)).tokens ∧
        (allowSeq (TokenBucket.init 2 3) ([(0 : ℚ), 1/2, 1].take 2)).tokens ≤ 3) :=
  ⟨by norm_num, by norm_num, by decide,
    tokens_in_range_of_nonneg_params 2 3 (by norm_num) (by norm_num) _ (by decide) 2⟩

/-- `allowAll` peels off its first call. -/
theorem allowAll_cons (tb : TokenBucket) (t : ℚ) (ts : List ℚ) :
    allowAll tb (t :: ts) =
      ((tb.allow t).1 :: (allowAll (tb.allow t).2 ts).1, (allowAll (tb.allow t).2 ts).2) := rfl

/-- `evenlySpaced` peels off its first timestamp. -/
theorem evenlySpaced_succ (t0 step : ℚ) (n : ℕ) :
    evenlySpaced t0 step (n + 1) = t0 :: evenlySpaced (t0 + step) step n := by
  simp only [evenlySpaced, List.range_succ_eq_map, List.map_cons, List.map_map, Nat.cast_zero,
    zero_mul, add_zero]
  congr 1
  apply List.map_congr_left
  intro k _
  simp only [Function.comp_apply, Nat.cast_succ]
  ring

/-- An `allow` call spaced `step` after the bucket's last refill, under the
steady-state hypotheses, is allowed and leaves at least 0 tokens. -/
theorem allow_spaced_step (r c tok t step : ℚ) (hstep : 0 < step) (hrate : 1 ≤ step * r)
    (hc : 1 ≤ c) (htok : 0 ≤ tok) :
    TokenBucket.allow ⟨r, c, tok, some t⟩ (t + step) =
      (true, ⟨r, c, min c (tok + step * r) - 1, some (t + step)⟩) := by
  have harg : t + step - t = step := by ring
  simp only [TokenBucket.allow, Option.getD_some, harg]
  rw [if_pos hstep, if_pos (le_min hc (by linarith : (1 : ℚ) ≤ tok + step * r))]

/-- A fresh bucket with capacity ≥ 1 allows its first call and is left with
`capacity - 1` tokens and `last_time` set. -/
theorem allow_fresh (r c now : ℚ) (hc : 1 ≤ c) :
    TokenBucket.allow (TokenBucket.init r c) now = (true, ⟨r, c, c - 1, some now⟩) := by
  simp only [TokenBucket.init, TokenBucket.allow, Option.getD_none, sub_self]
  rw [if_neg (lt_irrefl 0), if_pos hc]

/-- Every call of an evenly spaced sequence on an already-used bucket with
`0 < step`, `1 ≤ step * rate`, capacity ≥ 1 and non-negative tokens is
allowed. -/
theorem allowAll_spaced_all_true (r c step : ℚ) (hstep : 0 < step)
    (hrate : 1 ≤ step * r) (hc : 1 ≤ c) :
    ∀ (n : ℕ) (t tok : ℚ), 0 ≤ tok →
      ∀ b ∈ (allowAll ⟨r, c, tok, some t⟩ (evenlySpaced (t + step) step n)).1, b = true := by
  intro n
  induction n with
  | zero => intro t tok _ b hb; simp [allowAll, evenlySpaced] at hb
  | succ m ih =>
    intro t tok htok b hb
    rw [evenlySpaced_succ, allowAll_cons,
      allow_spaced_step r c tok t step hstep hrate hc htok] at hb
    dsimp only at hb
    rcases List.mem_cons.mp hb with h | h
    · exact h
    · refine ih (t + step) (min c (tok + step * r) - 1) ?_ b h
      have := le_min hc (by linarith : (1 : ℚ) ≤ tok + step * r)
      linarith

/-- C8 counterexample: rate 1, capacity 1/2, spacing 1 satisfies the claim's
hypotheses (positive spacing, spacing × rate ≥ 1), yet already the first
call is denied: the claim omits that the burst capacity must cover one
token. -/
theorem steady_state_fails_for_small_capacity :
    (0 : ℚ) < 1 ∧ (1 : ℚ) ≤ 1 * 1 ∧
      false ∈ (allowAll (TokenBucket.init 1 (1/2)) (evenlySpaced 0 1 1)).1 := by
  refine ⟨by norm_num, by norm_num, ?_⟩
  decide

/-- C8 amended: with the extra (forced) hypothesis capacity ≥ 1, every call
of an arbitrarily long evenly spaced sequence with `0 < step` and
`step * rate ≥ 1` on a fresh bucket returns true. -/
theorem steady_state_all_allowed (r c t0 step : ℚ) (n : ℕ) (hstep : 0 < step)
    (hrate : 1 ≤ step * r) (hc : 1 ≤ c) :
    ∀ b ∈ (allowAll (TokenBucket.init r c) (evenlySpaced t0 step n)).1, b = true := by
  cases n with
  | zero => intro b hb; simp [allowAll, evenlySpaced] at hb
  | succ m =>
    intro b hb
    rw [evenlySpaced_succ, allowAll_cons, allow_fresh r c t0 hc] at hb
    dsimp only at hb
    rcases List.mem_cons.mp hb with h | h
    · exact h
    · exact allowAll_spaced_all_true r c step hstep hrate hc m t0 (c - 1) (by linarith) b h

/-- C8 amended witness: rate 1, capacity 1, spacing 1, three calls from 0. -/
theorem steady_state_witness :
    (0 : ℚ) < 1 ∧ (1 : ℚ) ≤ 1 * 1 ∧ (1 : ℚ) ≤ 1 ∧
      ∀ b ∈ (allowAll (TokenBucket.init 1 1) (evenlySpaced 0 1 3)).1, b = true :=
  ⟨by norm_num, by norm_num, le_rfl,
    steady_state_all_allowed 1 1 0 1 3 (by norm_num) (by norm_num) le_rfl⟩

/-- `process` returns one of the four (action, reason) pairs the loop keys on. -/
theorem process_shape (f : ATMFilter) (cell : ATMCell) (now : ℚ) :
    (f.process cell now).1 = ("drop", some "header") ∨
      (f.process cell now).1 = ("drop", some "policer") ∨
        (f.process cell now).1 = ("drop", some "payload") ∨
          (f.process cell now).1 = ("forward", none) := by
  by_cases h : f.header_rule.check cell
  · simp [ATMFilter.process, h]
  · simp only [ATMFilter.process, h, Bool.false_eq_true, if_false]
    cases hl : lookupTB f.policers cell.header with
    | none => split_ifs <;> simp
    | some tb => cases hb : (tb.allow now).1 <;> simp [hb] <;> split_ifs <;> simp

/-- One loop iteration of `run_simulation` preserves the counter identities. -/
theorem stepCell_statsInv (base : ℚ) (acc : Stats × ATMFilter) (tc : ℚ × ATMCell)
    (h : statsInv acc.1) : statsInv (stepCell base acc tc).1 := by
  obtain ⟨h1, h2, h3, h4⟩ := h
  rcases process_shape acc.2 tc.2 (base + tc.1) with hs | hs | hs | hs <;>
    cases hmal : tc.2.is_malicious <;>
      simp [stepCell, statsInv, hs, hmal] <;> omega

/-- Folding any cell list through the loop preserves the counter identities. -/
theorem foldl_statsInv (base : ℚ) :
    ∀ (cells : List (ℚ × ATMCell)) (acc : Stats × ATMFilter),
      statsInv acc.1 → statsInv (cells.foldl (stepCell base) acc).1 := by
  intro cells
  induction cells with
  | nil => intro acc h; exact h
  | cons c cs ih => intro acc h; exact ih _ (stepCell_statsInv base acc c h)

/-- C10: after every processed cell (every prefix of the generated traffic),
and hence in every snapshot and in the final result, total = forwarded +
dropped, and the per-label and per-reason counters add up. -/
theorem counter_sums_invariant (duration rate mal_frac : ℚ) (deny : Finset (Int × Int))
    (sigs : List String) (cfg : List ((Int × Int) × (ℚ × ℚ))) (rng : ℕ → RandDraw)
    (base : ℚ) (n : ℕ) :
    statsInv (((generate_traffic duration rate mal_frac rng).take n).foldl (stepCell base)
        ({}, ATMFilter.build deny sigs cfg)).1 ∧
      statsInv (run_simulation duration rate mal_frac deny sigs cfg rng base).counters := by
  constructor
  · exact foldl_statsInv base _ _ ⟨rfl, rfl, rfl, rfl⟩
  · have := foldl_statsInv base (generate_traffic duration rate mal_frac rng)
      ({}, ATMFilter.build deny sigs cfg) ⟨rfl, rfl, rfl, rfl⟩
    simpa [run_simulation, finalize] using this

/-- A list is a Boolean prefix of itself followed by anything. -/
theorem isPrefixOf_self_append (l r : List Char) : l.isPrefixOf (l ++ r) = true := by
  induction l with
  | nil => simp [List.isPrefixOf]
  | cons a as ih => simp [List.isPrefixOf, ih]

/-- Python's `nd in nd + rest` is true: a string contains its own prefix. -/
theorem containsSub_append (nd rest : List Char) : containsSub nd (nd ++ rest) = true := by
  cases nd with
  | nil => cases rest <;> simp [containsSub, List.isPrefixOf]
  | cons a as =>
    show containsSub (a :: as) (a :: (as ++ rest)) = true
    simp [containsSub, isPrefixOf_self_append]

/-- With malicious fraction 1 and a uniform draw below 1, the generated cell
is malicious and its payload matches any signature list containing
"BADSIG_". -/
theorem check_genCell_of_badsig (sigs : List String) (hsig : "BADSIG_" ∈ sigs)
    (d : RandDraw) (hu : d.u < 1) :
    PayloadRule.check ⟨sigs⟩ (genCell 1 d) = true := by
  have hm : d.u < (1 : ℚ) := hu
  simp only [PayloadRule.check, genCell, hm, if_pos, List.any_eq_true]
  refine ⟨"BADSIG_", hsig, ?_⟩
  rw [String.data_append]
  exact containsSub_append _ _

/-- `process` never changes the header rule or the payload rule. -/
theorem process_preserves_rules (f : ATMFilter) (cell : ATMCell) (now : ℚ) :
    ((f.process cell now).2).payload_rule = f.payload_rule ∧
      ((f.process cell now).2).header_rule = f.header_rule := by
  by_cases h : f.header_rule.check cell
  · simp [ATMFilter.process, h]
  · simp only [ATMFilter.process, h, Bool.false_eq_true, if_false]
    cases hl : lookupTB f.policers cell.header with
    | none => split_ifs <;> simp
    | some tb => cases hb : (tb.allow now).1 <;> simp [hb] <;> split_ifs <;> simp

/-- A cell whose payload matches a signature is never forwarded. -/
theorem process_drops_matching_payload (f : ATMFilter) (cell : ATMCell) (now : ℚ)
    (h : f.payload_rule.check cell = true) : (f.process cell now).1.1 = "drop" := by
  by_cases hh : f.header_rule.check cell
  · simp [ATMFilter.process, hh]
  · simp only [ATMFilter.process, hh, Bool.false_eq_true, if_false]
    cases hl : lookupTB f.policers cell.header with
    | none => simp [h]
    | some tb => cases hb : (tb.allow now).1 <;> simp [hb, h]

/-- If every cell of the list matches the filter's payload rule, the fold
never increments `mal_forwarded` (or `forwarded`). -/
theorem foldl_no_forward (base : ℚ) (pr : PayloadRule) :
    ∀ (cells : List (ℚ × ATMCell)) (acc : Stats × ATMFilter),
      acc.2.payload_rule = pr → (∀ c ∈ cells, pr.check c.2 = true) →
      (cells.foldl (stepCell base) acc).1.mal_forwarded = acc.1.mal_forwarded ∧
        (cells.foldl (stepCell base) acc).1.forwarded = acc.1.forwarded := by
  intro cells
  induction cells with
  | nil => intro acc _ _; exact ⟨rfl, rfl⟩
  | cons c cs ih =>
    intro acc hpr hall
    have hcheck : acc.2.payload_rule.check c.2 = true := by
      rw [hpr]; exact hall c (List.mem_cons_self c cs)
    have hdrop := process_drops_matching_payload acc.2 c.2 (base + c.1) hcheck
    have hpr' : ((stepCell base acc c).2).payload_rule = pr := by
      have := (process_preserves_rules acc.2 c.2 (base + c.1)).1
      simpa [stepCell] using hpr ▸ this
    have hstep : (stepCell base acc c).1.mal_forwarded = acc.1.mal_forwarded ∧
        (stepCell base acc c).1.forwarded = acc.1.forwarded := by
      cases hmal : c.2.is_malicious <;>
        simp [stepCell, hdrop, hmal] <;>
          constructor <;> (split <;> rfl)
    obtain ⟨ha, hb⟩ := ih (stepCell base acc c) hpr'
      (fun x hx => hall x (List.mem_cons_of_mem c hx))
    exact ⟨by rw [List.foldl_cons, ha, hstep.1], by rw [List.foldl_cons, hb, hstep.2]⟩

/-- C6: with malicious fraction 1 (every uniform draw being below 1, as
`random.random()` guarantees) and "BADSIG_" among the signatures, a run
forwards no malicious cell: `mal_forwarded = 0` and the false negative rate
is 0. -/
theorem all_malicious_zero_false_negatives (duration rate : ℚ) (deny : Finset (Int × Int))
    (sigs : List String) (cfg : List ((Int × Int) × (ℚ × ℚ))) (rng : ℕ → RandDraw)
    (base : ℚ) (hu : ∀ k, (rng k).u < 1) (hsig : "BADSIG_" ∈ sigs) :
    (run_simulation duration rate 1 deny sigs cfg rng base).counters.mal_forwarded = 0 ∧
      (run_simulation duration rate 1 deny sigs cfg rng base).false_negative_rate = 0 := by
  have hall : ∀ c ∈ generate_traffic duration rate 1 rng,
      PayloadRule.check ⟨sigs⟩ c.2 = true := by
    intro c hc
    simp only [generate_traffic, List.mem_map, List.mem_range] at hc
    obtain ⟨k, _, rfl⟩ := hc
    exact check_genCell_of_badsig sigs hsig (rng k) (hu k)
  have h0 := foldl_no_forward base ⟨sigs⟩ (generate_traffic duration rate 1 rng)
    ({}, ATMFilter.build deny sigs cfg) rfl hall
  constructor
  · simpa [run_simulation, finalize] using h0.1
  · have hmf : (run_simulation duration rate 1 deny sigs cfg rng base).counters.mal_forwarded
        = 0 := by simpa [run_simulation, finalize] using h0.1
    simp only [run_simulation, finalize] at hmf ⊢
    rw [hmf]
    split_ifs <;> simp

/-- Shift a bucket's clock by `d` (tokens and configuration untouched). -/
def shiftTB (d : ℚ) (tb : TokenBucket) : TokenBucket :=
  { tb with last_time := tb.last_time.map (· + d) }

/-- Shift every policer's clock by `d`. -/
def shiftFilter (d : ℚ) (f : ATMFilter) : ATMFilter :=
  { f with policers := f.policers.map fun p => (p.1, shiftTB d p.2) }

/-- `allow` commutes with a uniform clock shift: the decision is unchanged
and the mutated bucket is the shifted mutated bucket. -/
theorem allow_shift (d : ℚ) (tb : TokenBucket) (now : ℚ) :
    (shiftTB d tb).allow (now + d) = ((tb.allow now).1, shiftTB d (tb.allow now).2) := by
  rcases tb with ⟨r, c, tok, olt⟩
  cases olt with
  | none =>
    simp only [shiftTB, TokenBucket.allow, Option.map_none', Option.getD_none, sub_self,
      lt_irrefl, if_false, Option.map_some']
    split_ifs <;> rfl
  | some t =>
    have he : now + d - (t + d) = now - t := by ring
    simp only [shiftTB, TokenBucket.allow, Option.map_some', Option.getD_some, he]
    split_ifs <;> rfl

/-- Looking up in shifted policers finds the shifted bucket. -/
theorem lookupTB_shift (d : ℚ) (l : List ((Int × Int) × TokenBucket)) (k : Int × Int) :
    lookupTB (l.map fun p => (p.1, shiftTB d p.2)) k = (lookupTB l k).map (shiftTB d) := by
  induction l with
  | nil => rfl
  | cons p ps ih => by_cases h : p.1 = k <;> simp [lookupTB, h, ih]

/-- Updating shifted policers with a shifted bucket is shifting the update. -/
theorem updateTB_shift (d : ℚ) (l : List ((Int × Int) × TokenBucket)) (k : Int × Int)
    (v : TokenBucket) :
    updateTB (l.map fun p => (p.1, shiftTB d p.2)) k (shiftTB d v) =
      (updateTB l k v).map fun p => (p.1, shiftTB d p.2) := by
  simp only [updateTB, List.map_map]
  apply List.map_congr_left
  intro p _
  by_cases h : p.1 = k <;> simp [Function.comp, h]

/-- `process` commutes with a uniform clock shift of base time and buckets. -/
theorem process_shift (d : ℚ) (f : ATMFilter) (cell : ATMCell) (now : ℚ) :
    (shiftFilter d f).process cell (now + d) =
      ((f.process cell now).1, shiftFilter d (f.process cell now).2) := by
  by_cases hh : f.header_rule.check cell
  · simp [ATMFilter.process, shiftFilter, hh]
  · simp only [ATMFilter.process, shiftFilter, hh, Bool.false_eq_true, if_false]
    rw [lookupTB_shift]
    cases hl : lookupTB f.policers cell.header with
    | none => simp only [Option.map_none']; split_ifs <;> rfl
    | some tb =>
      simp only [Option.map_some', allow_shift, updateTB_shift]
      cases hb : (tb.allow now).1 <;> split_ifs <;> rfl

/-- One loop iteration commutes with a uniform clock shift. -/
theorem stepCell_shift (d base : ℚ) (st : Stats) (f : ATMFilter) (tc : ℚ × ATMCell) :
    stepCell (base + d) (st, shiftFilter d f) tc =
      ((stepCell base (st, f) tc).1, shiftFilter d (stepCell base (st, f) tc).2) := by
  have hnow : base + d + tc.1 = base + tc.1 + d := by ring
  simp only [stepCell, hnow, process_shift]

/-- The whole aggregation fold commutes with a uniform clock shift: the
counters are identical and the final filter is the shifted filter. -/
theorem foldl_stepCell_shift (d base : ℚ) :
    ∀ (cells : List (ℚ × ATMCell)) (st : Stats) (f : ATMFilter),
      cells.foldl (stepCell (base + d)) (st, shiftFilter d f) =
        ((cells.foldl (stepCell base) (st, f)).1,
          shiftFilter d (cells.foldl (stepCell base) (st, f)).2) := by
  intro cells
  induction cells with
  | nil => intro st f; rfl
  | cons c cs ih =>
    intro st f
    rw [List.foldl_cons, List.foldl_cons, stepCell_shift]
    exact ih (stepCell base (st, f) c).1 (stepCell base (st, f) c).2

/-- C4: two runs with the same parameters and the same draw stream but
different wall-clock anchors produce the same final counters and rates: the
anchor cancels out of every elapsed-time computation. -/
theorem run_simulation_base_time_invariant (duration rate mal_frac : ℚ)
    (deny : Finset (Int × Int)) (sigs : List String)
    (cfg : List ((Int × Int) × (ℚ × ℚ))) (rng : ℕ → RandDraw) (b1 b2 : ℚ) :
    run_simulation duration rate mal_frac deny sigs cfg rng b1 =
      run_simulation duration rate mal_frac deny sigs cfg rng b2 := by
  have hshift : shiftFilter (b2 - b1) (ATMFilter.build deny sigs cfg) =
      ATMFilter.build deny sigs cfg := by
    simp only [shiftFilter, ATMFilter.build, List.map_map]
    congr 1
  have key := foldl_stepCell_shift (b2 - b1) b1 (generate_traffic duration rate mal_frac rng)
    {} (ATMFilter.build deny sigs cfg)
  rw [hshift] at key
  have hb : b1 + (b2 - b1) = b2 := by ring
  rw [hb] at key
  have hfst : ((generate_traffic duration rate mal_frac rng).foldl (stepCell b2)
        ({}, ATMFilter.build deny sigs cfg)).1 =
      ((generate_traffic duration rate mal_frac rng).foldl (stepCell b1)
        ({}, ATMFilter.build deny sigs cfg)).1 := by rw [key]
  simp only [run_simulation]
  rw [hfst]

/-- C5: the final result's rates are the guarded quotients: each rate is the
per-label quotient when its denominator is non-zero and 0.0 when the
denominator is zero, so no division by zero is ever performed. -/
theorem final_rates_guard_division (duration rate mal_frac : ℚ) (deny : Finset (Int × Int))
    (sigs : List String) (cfg : List ((Int × Int) × (ℚ × ℚ))) (rng : ℕ → RandDraw)
    (base : ℚ) :
    ((run_simulation duration rate mal_frac deny sigs cfg rng base).counters.legit_total ≠ 0 →
        (run_simulation duration rate mal_frac deny sigs cfg rng base).false_positive_rate =
          ((run_simulation duration rate mal_frac deny sigs cfg rng base).counters.legit_dropped : ℚ) /
            ((run_simulation duration rate mal_frac deny sigs cfg rng base).counters.legit_total : ℚ)) ∧
      ((run_simulation duration rate mal_frac deny sigs cfg rng base).counters.legit_total = 0 →
          (run_simulation duration rate mal_frac deny sigs cfg rng base).false_positive_rate = 0) ∧
        ((run_simulation duration rate mal_frac deny sigs cfg rng base).counters.mal_total ≠ 0 →
            (run_simulation duration rate mal_frac deny sigs cfg rng base).false_negative_rate =
              ((run_simulation duration rate mal_frac deny sigs cfg rng base).counters.mal_forwarded : ℚ) /
                ((run_simulation duration rate mal_frac deny sigs cfg rng base).counters.mal_total : ℚ)) ∧
          ((run_simulation duration rate mal_frac deny sigs cfg rng base).counters.mal_total = 0 →
              (run_simulation duration rate mal_frac deny sigs cfg rng base).false_negative_rate = 0) := by
  simp only [run_simulation, finalize]
  refine ⟨fun h => ?_, fun h => ?_, fun h => ?_, fun h => ?_⟩ <;> simp [h]

/-- C5 witness: an all-legitimate two-cell run (legit_total = 2 ≠ 0,
mal_total = 0), exercising both the quotient branch and the 0.0 branch. -/
theorem final_rates_witness :
    (run_simulation 1 2 0 ∅ ["BADSIG_"] [] constRng0 5).false_positive_rate =
        ((run_simulation 1 2 0 ∅ ["BADSIG_"] [] constRng0 5).counters.legit_dropped : ℚ) /
          ((run_simulation 1 2 0 ∅ ["BADSIG_"] [] constRng0 5).counters.legit_total : ℚ) ∧
      (run_simulation 1 2 0 ∅ ["BADSIG_"] [] constRng0 5).false_negative_rate = 0 :=
  ⟨(final_rates_guard_division 1 2 0 ∅ ["BADSIG_"] [] constRng0 5).1 (by decide),
    (final_rates_guard_division 1 2 0 ∅ ["BADSIG_"] [] constRng0 5).2.2.2 (by decide)⟩

/-- C6 witness: one generated cell, seed stream constantly 0. -/
theorem all_malicious_witness :
    (∀ k, (constRng0 k).u < 1) ∧ "BADSIG_" ∈ ["BADSIG_"] ∧
      (run_simulation 1 1 1 ∅ ["BADSIG_"] [] constRng0 5).counters.mal_forwarded = 0 ∧
        (run_simulation 1 1 1 ∅ ["BADSIG_"] [] constRng0 5).false_negative_rate = 0 :=
  ⟨fun _ => by norm_num [constRng0], by simp,
    all_malicious_zero_false_negatives 1 1 ∅ ["BADSIG_"] [] constRng0 5
      (fun _ => by norm_num [constRng0]) (by simp)⟩
